import Mathlib

/-!
Verification of the silvermine event-emitter mixin (src/index.js and its
helpers src/lib/find.js, src/lib/reject.js, src/lib/is-array-of-strings.js).

The JavaScript code is embedded shallowly:

* JavaScript values that the emitter inspects are modelled by `JSVal`,
  with functions and plain objects compared by an identity tag, mirroring
  reference identity under the strict equality operator.
* The `eventNames` argument of `on` / `off` / `emit`, which may be an
  array, is modelled by `NamesArg`.
* The listener registry, a plain object mapping event names to arrays of
  listener registrations, is modelled as a total function from `String`
  to `List ListenerReg`; an absent key and an empty array are
  observationally identical in the source, which never enumerates keys.
* Emission is asynchronous in the source: each registration produces a
  Promise continuation, queued in order on the microtask queue.  The
  model keeps a FIFO `pending` list of scheduled tasks in the emitter
  state, and `runAllPending` drains it; `callLog` records every actual
  listener invocation (function, receiver, arguments).
* Thrown validation errors are modelled with `Except String`.
-/

namespace EventEmitter

/-- A JavaScript value as far as the emitter can observe it.  Functions and
objects carry an identity tag: strict equality between two function or two
object values is reference identity in the source.  NaN and negative zero
are not modelled; no emitter code path depends on them. -/
inductive JSVal where
  | undef : JSVal
  | nul : JSVal
  | boolVal : Bool → JSVal
  | numVal : Int → JSVal
  | strVal : String → JSVal
  | fn : Nat → JSVal
  | obj : Nat → JSVal
deriving DecidableEq, Repr

/-- The JavaScript `typeof` operator on a `JSVal`. -/
def jsTypeof : JSVal → String
  | .undef => "undefined"
  | .nul => "object"
  | .boolVal _ => "boolean"
  | .numVal _ => "number"
  | .strVal _ => "string"
  | .fn _ => "function"
  | .obj _ => "object"

/-- JavaScript truthiness of a `JSVal`. -/
def truthy : JSVal → Bool
  | .undef => false
  | .nul => false
  | .boolVal b => b
  | .numVal n => n != 0
  | .strVal s => s != ""
  | .fn _ => true
  | .obj _ => true

/-- JavaScript string conversion, as used when a value becomes a property
key or is concatenated into an error message.  The conversion of a
function to its source text is approximated by its identity tag; every
claim only ever converts strings. -/
def jsToKeyString : JSVal → String
  | .undef => "undefined"
  | .nul => "null"
  | .boolVal b => if b then "true" else "false"
  | .numVal n => toString n
  | .strVal s => s
  | .fn id => "function " ++ toString id
  | .obj _ => "[object Object]"

/-- The `eventNames` argument of `on` / `off` / `emit`: either a plain
value or an array (arrays are separated out so that `Array.isArray` is a
constructor test). -/
inductive NamesArg where
  | val : JSVal → NamesArg
  | arr : List JSVal → NamesArg
deriving DecidableEq, Repr

/-- `typeof` on a `NamesArg`; arrays are objects. -/
def namesTypeof : NamesArg → String
  | .val v => jsTypeof v
  | .arr _ => "object"

/-- Truthiness of a `NamesArg`; every array, even an empty one, is truthy. -/
def truthyNames : NamesArg → Bool
  | .val v => truthy v
  | .arr _ => true

/-- Embeds src/lib/is-array-of-strings.js: true exactly when the argument
is a non-empty array whose every element is a string (a fold with initial
accumulator `true`, as in the source `reduce`). -/
def isArrayOfStrings : NamesArg → Bool
  | .arr o => decide (o.length > 0) && o.foldl (fun memo item => memo && (jsTypeof item == "string")) true
  | .val _ => false

/-- String conversion of a `NamesArg` for error messages; an array joins
its elements with commas, as `Array.prototype.toString` does. -/
def jsDisplayString : NamesArg → String
  | .val v => jsToKeyString v
  | .arr l => String.intercalate "," (l.map jsToKeyString)

/-- The internal normalization `Array.isArray(eventNames) ? eventNames :
[ eventNames ]`, with each element then used as a property key. -/
def toEventNamesList : NamesArg → List String
  | .val v => [jsToKeyString v]
  | .arr l => l.map jsToKeyString

/-- The callback stored in a registration: either the listener function
itself (registrations made by `on`) or the one-off wrapper closure made
by `once`, which captures the event name, the listener and the context. -/
inductive Callback where
  | direct : JSVal → Callback
  | oneOff : String → JSVal → JSVal → Callback
deriving DecidableEq, Repr

/-- One entry of the listener registry, as pushed by `_addEventListener`:
the callback actually invoked on emission, the listener function and the
registration context. -/
structure ListenerReg where
  callback : Callback
  listener : JSVal
  context : JSVal
deriving DecidableEq, Repr

/-- The `_eventListeners` hash: event name to ordered array of
registrations.  Unknown names map to the empty list. -/
def Registry : Type := String → List ListenerReg

/-- Assignment `_eventListeners[eventName] = l`. -/
def updateReg (r : Registry) (eventName : String) (l : List ListenerReg) : Registry :=
  fun key => if key = eventName then l else r key

/-- A deferred listener invocation sitting on the microtask queue:
the callback, the receiver (`listener.context` in `_emitEvent`) and the
emission arguments. -/
structure ScheduledTask where
  callback : Callback
  context : JSVal
  args : List JSVal
deriving DecidableEq, Repr

/-- A record of one actual listener invocation: the listener function,
the `this` value it received, and the arguments. -/
structure CallRecord where
  fn : JSVal
  thisVal : JSVal
  args : List JSVal
deriving DecidableEq, Repr

/-- The observable state of one emitter instance: its registry, the FIFO
queue of scheduled (not yet run) listener invocations, and the log of
invocations that have run. -/
structure EmitterState where
  registry : Registry
  pending : List ScheduledTask
  callLog : List CallRecord

/-- A fresh instance: no registrations, nothing scheduled, nothing run. -/
def emptyState : EmitterState :=
  { registry := fun _ => [], pending := [], callLog := [] }

/-- Embeds src/lib/find.js: first element for which the test returns a
truthy value, else undefined.  The guard of the source for a non-array or
non-function argument cannot fire in this typed model. -/
def find {α : Type} (arr : List α) (testFn : α → Bool) : Option α :=
  match arr with
  | [] => none
  | x :: rest => if testFn x then some x else find rest testFn

/-- Embeds src/lib/reject.js: the elements for which the test returns a
falsy value.  The `arr || []` default of the source is provided by the
registry mapping unknown names to the empty list. -/
def reject {α : Type} (arr : List α) (testFn : α → Bool) : List α :=
  arr.filter fun item => !testFn item

/-- Embeds `_findEventListener`: first registration under `eventName`
whose listener and context are strictly equal to the arguments. -/
def findEventListener (r : Registry) (eventName : String) (listener context : JSVal) : Option ListenerReg :=
  find (r eventName) fun el => el.listener == listener && el.context == context

/-- Embeds `_addEventListener`.  The fourth source parameter is either the
one-off wrapper function (a function value, passed by `once`) or absent
(passed by `on`); the source test `typeof callback === 'function'` is the
`Option` match, the absent case storing the listener itself. -/
def addEventListener (r : Registry) (eventName : String) (listener context : JSVal)
    (callback : Option Callback) : Registry :=
  match findEventListener r eventName listener context with
  | some _ => r
  | none => updateReg r eventName (r eventName ++ [⟨callback.getD (.direct listener), listener, context⟩])

/-- Embeds `_removeEventListener`: a falsy listener clears the whole list
for the name; otherwise registrations with a strictly equal listener are
rejected, the context being compared only when the context argument is
defined. -/
def removeEventListener (r : Registry) (eventName : String) (listener context : JSVal) : Registry :=
  if !truthy listener then
    updateReg r eventName []
  else
    updateReg r eventName (reject (r eventName) fun el =>
      el.listener == listener && (if jsTypeof context == "undefined" then true else el.context == context))

/-- Embeds `on`: validate the event names and the listener, then for each
name first remove a matching registration and then add a fresh one whose
callback is the listener itself. -/
def on' (s : EmitterState) (eventNames : NamesArg) (listener context : JSVal) :
    Except String EmitterState :=
  if namesTypeof eventNames != "string" && !isArrayOfStrings eventNames then
    .error ("the eventNames parameter must be a string or an array of strings, but was: "
      ++ jsDisplayString eventNames)
  else if jsTypeof listener != "function" then
    .error ("the listener parameter must be a function, but was: " ++ jsTypeof listener)
  else
    let names := toEventNamesList eventNames
    let r1 := names.foldl (fun r e => removeEventListener r e listener context) s.registry
    let r2 := names.foldl (fun r e => addEventListener r e listener context none) r1
    .ok { s with registry := r2 }

/-- Embeds `once`: the event name must be a single string and the listener
a function; the stored callback is the one-off wrapper closure over the
event name, the listener and the context. -/
def once (s : EmitterState) (eventName : NamesArg) (listener context : JSVal) :
    Except String EmitterState :=
  match eventName with
  | .val (.strVal e) =>
    if jsTypeof listener != "function" then
      .error ("the listener parameter must be a function, but was: " ++ jsTypeof listener)
    else
        .ok { s with registry := (addEventListener s.registry e listener context
              (some (.oneOff e listener context))) }
  | other =>
    .error ("the eventName parameter must be a string, but was: " ++ namesTypeof other)

/-- Embeds `off`: a falsy `eventNames` discards the whole registry;
otherwise each name is passed to `_removeEventListener` together with the
listener and context arguments.  No validation is performed. -/
def off (s : EmitterState) (eventNames : NamesArg) (listener context : JSVal) : EmitterState :=
  if !truthyNames eventNames then
    { s with registry := fun _ => [] }
  else
    { s with registry := ((toEventNamesList eventNames).foldl
        (fun r e => removeEventListener r e listener context) s.registry) }

/-- Embeds `_emitEvent`: schedule, in registry order, one deferred
invocation per registration of the name, each receiving the stored
context as receiver and the emission arguments. -/
def emitEvent (s : EmitterState) (eventName : String) (eventArgs : List JSVal) : EmitterState :=
  { s with pending := (s.pending ++ (s.registry eventName).map
      fun l => ⟨l.callback, l.context, eventArgs⟩) }

/-- Embeds `emit`: validate the event names, then schedule the deferred
invocations for each name; nothing runs synchronously. -/
def emit (s : EmitterState) (eventNames : NamesArg) (eventArgs : List JSVal) :
    Except String EmitterState :=
  if namesTypeof eventNames != "string" && !isArrayOfStrings eventNames then
    .error ("the eventNames parameter must be a string or an array of strings, but was: "
      ++ jsDisplayString eventNames)
  else
    .ok ((toEventNamesList eventNames).foldl (fun st e => emitEvent st e eventArgs) s)

/-- Runs one scheduled task against a registry and a call log.  A direct
callback invokes the listener unconditionally.  The one-off wrapper first
re-checks with `_findEventListener` that its registration still exists,
and only then invokes the listener and removes the registration. -/
def runTask (rl : Registry × List CallRecord) (t : ScheduledTask) : Registry × List CallRecord :=
  match t.callback with
  | .direct f => (rl.1, rl.2 ++ [⟨f, t.context, t.args⟩])
  | .oneOff e f c =>
    match findEventListener rl.1 e f c with
    | some _ => (removeEventListener rl.1 e f c, rl.2 ++ [⟨f, t.context, t.args⟩])
    | none => rl

/-- Drains the microtask queue in FIFO order.  Scheduled tasks never
schedule further tasks, so one pass empties the queue. -/
def runAllPending (s : EmitterState) : EmitterState :=
  let rl := s.pending.foldl runTask (s.registry, s.callLog)
  { registry := rl.1, pending := [], callLog := rl.2 }

/-- The state after a call that may throw: the new state on success, the
unchanged state when the call threw. -/
def okOr (s : EmitterState) (r : Except String EmitterState) : EmitterState :=
  match r with
  | .ok s2 => s2
  | .error _ => s

/-- Number of logged invocations of a given listener function. -/
def callCount (log : List CallRecord) (f : JSVal) : Nat :=
  (log.filter fun r => r.fn == f).length

/-- One emission of a single event name followed by a full drain of the
microtask queue (one scheduler turn). -/
def emitRound (e : String) (args : List JSVal) (s : EmitterState) : EmitterState :=
  runAllPending (okOr s (emit s (.val (.strVal e)) args))

/-- One emission of a single event name with no drain: the scheduled
invocations stay on the queue. -/
def emitOnly (e : String) (args : List JSVal) (s : EmitterState) : EmitterState :=
  okOr s (emit s (.val (.strVal e)) args)

/-- One public interaction with the emitter, for reachability statements. -/
inductive EmitterOp where
  | callOn : NamesArg → JSVal → JSVal → EmitterOp
  | callOnce : NamesArg → JSVal → JSVal → EmitterOp
  | callOff : NamesArg → JSVal → JSVal → EmitterOp
  | callEmit : NamesArg → List JSVal → EmitterOp
  | runPending : EmitterOp

/-- Applies one interaction; a call that throws leaves the state as it
was. -/
def applyOp (s : EmitterState) (op : EmitterOp) : EmitterState :=
  match op with
  | .callOn en f c => okOr s (on' s en f c)
  | .callOnce en f c => okOr s (once s en f c)
  | .callOff en f c => off s en f c
  | .callEmit en args => okOr s (emit s en args)
  | .runPending => runAllPending s

/-- The state reached by a sequence of interactions from a fresh
instance. -/
def runOps (ops : List EmitterOp) : EmitterState :=
  ops.foldl applyOp emptyState

/-- The de-duplication invariant of the registry: no two registrations of
one event name share the same listener and context identities. -/
def noDupPairs (l : List ListenerReg) : Prop :=
  l.Pairwise fun a b => ¬(a.listener = b.listener ∧ a.context = b.context)

/-! ### Basic lemmas about the registry model -/

theorem updateReg_self (r : Registry) (e : String) (l : List ListenerReg) :
    updateReg r e l e = l := by
  simp [updateReg]

theorem updateReg_ne (r : Registry) (e : String) (l : List ListenerReg) (a : String)
    (h : a ≠ e) : updateReg r e l a = r a := by
  simp [updateReg, h]

theorem find_eq_none_iff {α : Type} (l : List α) (p : α → Bool) :
    find l p = none ↔ ∀ x ∈ l, p x = false := by
  induction l with
  | nil => simp [find]
  | cons x xs ih =>
    cases hpx : p x with
    | true => simp [find, hpx]
    | false => simp [find, hpx, ih]

theorem jsTypeof_eq_undefined_iff (v : JSVal) : jsTypeof v = "undefined" ↔ v = .undef := by
  cases v <;> simp [jsTypeof]

/-! ### Preservation of the de-duplication invariant -/

theorem noDupPairs_nil : noDupPairs [] := List.Pairwise.nil

theorem noDupPairs_filter (l : List ListenerReg) (p : ListenerReg → Bool)
    (h : noDupPairs l) : noDupPairs (l.filter p) :=
  List.Pairwise.sublist (List.filter_sublist l) h

theorem noDupPairs_append_singleton (l : List ListenerReg) (reg : ListenerReg)
    (h : noDupPairs l)
    (hn : ∀ a ∈ l, ¬(a.listener = reg.listener ∧ a.context = reg.context)) :
    noDupPairs (l ++ [reg]) := by
  rw [noDupPairs, List.pairwise_append]
  refine ⟨h, List.pairwise_singleton _ _, ?_⟩
  intro a ha b hb
  simp only [List.mem_singleton] at hb
  subst hb
  exact hn a ha

theorem noDup_updateReg (r : Registry) (e : String) (l : List ListenerReg)
    (h : ∀ a, noDupPairs (r a)) (hl : noDupPairs l) (a : String) :
    noDupPairs (updateReg r e l a) := by
  show noDupPairs (if a = e then l else r a)
  split_ifs
  · exact hl
  · exact h a

theorem noDup_remove (r : Registry) (e : String) (f c : JSVal)
    (h : ∀ a, noDupPairs (r a)) (a : String) :
    noDupPairs (removeEventListener r e f c a) := by
  simp only [removeEventListener, reject]
  split_ifs
  · exact noDup_updateReg _ _ _ h noDupPairs_nil a
  · exact noDup_updateReg _ _ _ h (noDupPairs_filter _ _ (h e)) a
  · exact noDup_updateReg _ _ _ h (noDupPairs_filter _ _ (h e)) a

theorem noDup_add (r : Registry) (e : String) (f c : JSVal) (cb : Option Callback)
    (h : ∀ a, noDupPairs (r a)) (a : String) :
    noDupPairs (addEventListener r e f c cb a) := by
  cases hf : findEventListener r e f c with
  | some reg => simpa [addEventListener, hf] using h a
  | none =>
    simp only [addEventListener, hf]
    refine noDup_updateReg _ _ _ h ?_ a
    refine noDupPairs_append_singleton _ _ (h e) ?_
    intro x hx hcontra
    have hfr : find (r e) (fun el => el.listener == f && el.context == c) = none := hf
    have := (find_eq_none_iff _ _).1 hfr x hx
    rw [hcontra.1, hcontra.2] at this
    simp at this

theorem noDup_foldl_remove (names : List String) (r : Registry) (f c : JSVal)
    (h : ∀ a, noDupPairs (r a)) (a : String) :
    noDupPairs ((names.foldl (fun acc e => removeEventListener acc e f c) r) a) := by
  induction names generalizing r with
  | nil => exact h a
  | cons x xs ih => exact ih _ (noDup_remove r x f c h)

theorem noDup_foldl_add (names : List String) (r : Registry) (f c : JSVal)
    (cb : Option Callback) (h : ∀ a, noDupPairs (r a)) (a : String) :
    noDupPairs ((names.foldl (fun acc e => addEventListener acc e f c cb) r) a) := by
  induction names generalizing r with
  | nil => exact h a
  | cons x xs ih => exact ih _ (noDup_add r x f c cb h)

theorem noDup_on (s : EmitterState) (en : NamesArg) (f c : JSVal)
    (h : ∀ a, noDupPairs (s.registry a)) (a : String) :
    noDupPairs ((okOr s (on' s en f c)).registry a) := by
  unfold on'
  split_ifs
  · simpa [okOr] using h a
  · simpa [okOr] using h a
  · simp only [okOr]
    exact noDup_foldl_add _ _ _ _ _ (noDup_foldl_remove _ _ _ _ h) a

theorem noDup_once (s : EmitterState) (en : NamesArg) (f c : JSVal)
    (h : ∀ a, noDupPairs (s.registry a)) (a : String) :
    noDupPairs ((okOr s (once s en f c)).registry a) := by
  unfold once
  cases en with
  | arr l => simpa [okOr] using h a
  | val v =>
    cases v with
    | strVal e =>
      split_ifs
      · simpa [okOr] using h a
      · simp only [okOr]
        exact noDup_add _ _ _ _ _ h a
    | undef => simpa [okOr] using h a
    | nul => simpa [okOr] using h a
    | boolVal b => simpa [okOr] using h a
    | numVal n => simpa [okOr] using h a
    | fn i => simpa [okOr] using h a
    | obj i => simpa [okOr] using h a

theorem noDup_off (s : EmitterState) (en : NamesArg) (f c : JSVal)
    (h : ∀ a, noDupPairs (s.registry a)) (a : String) :
    noDupPairs ((off s en f c).registry a) := by
  unfold off
  split_ifs with h1
  · exact noDupPairs_nil
  · exact noDup_foldl_remove _ _ _ _ h a

theorem registry_foldl_emitEvent (names : List String) (s : EmitterState)
    (args : List JSVal) :
    ((names.foldl (fun st e => emitEvent st e args) s)).registry = s.registry := by
  induction names generalizing s with
  | nil => rfl
  | cons x xs ih => rw [List.foldl_cons, ih]; rfl

theorem noDup_emit (s : EmitterState) (en : NamesArg) (args : List JSVal)
    (h : ∀ a, noDupPairs (s.registry a)) (a : String) :
    noDupPairs ((okOr s (emit s en args)).registry a) := by
  unfold emit
  split_ifs
  · simpa [okOr] using h a
  · simp only [okOr]
    rw [registry_foldl_emitEvent]
    exact h a

theorem noDup_runTask_fold (ts : List ScheduledTask) (p : Registry × List CallRecord)
    (h : ∀ a, noDupPairs (p.1 a)) (a : String) :
    noDupPairs ((ts.foldl runTask p).1 a) := by
  induction ts generalizing p with
  | nil => exact h a
  | cons t ts ih =>
    rw [List.foldl_cons]
    refine ih _ ?_
    obtain ⟨cb, ctx, args⟩ := t
    cases cb with
    | direct f => exact h
    | oneOff e f c =>
      intro b
      simp only [runTask]
      cases hfind : findEventListener p.1 e f c with
      | some reg => exact noDup_remove _ _ _ _ h b
      | none => exact h b

theorem noDup_runAllPending (s : EmitterState)
    (h : ∀ a, noDupPairs (s.registry a)) (a : String) :
    noDupPairs ((runAllPending s).registry a) :=
  noDup_runTask_fold s.pending (s.registry, s.callLog) h a

theorem noDup_applyOp (s : EmitterState) (op : EmitterOp)
    (h : ∀ a, noDupPairs (s.registry a)) (a : String) :
    noDupPairs ((applyOp s op).registry a) := by
  cases op with
  | callOn en f c => exact noDup_on s en f c h a
  | callOnce en f c => exact noDup_once s en f c h a
  | callOff en f c => exact noDup_off s en f c h a
  | callEmit en args => exact noDup_emit s en args h a
  | runPending => exact noDup_runAllPending s h a

theorem noDup_foldl_applyOp (ops : List EmitterOp) (s : EmitterState)
    (h : ∀ a, noDupPairs (s.registry a)) (a : String) :
    noDupPairs ((ops.foldl applyOp s).registry a) := by
  induction ops generalizing s with
  | nil => exact h a
  | cons op ops ih => exact ih _ (noDup_applyOp s op h)

/-! ### Computation lemmas for single-name calls -/

theorem on_str_fn (s : EmitterState) (e : String) (i : Nat) (c : JSVal) :
    on' s (.val (.strVal e)) (.fn i) c =
      .ok { s with registry :=
        addEventListener (removeEventListener s.registry e (.fn i) c) e (.fn i) c none } := rfl

theorem once_str_fn (s : EmitterState) (e : String) (i : Nat) (c : JSVal) :
    once s (.val (.strVal e)) (.fn i) c =
      .ok { s with registry :=
        addEventListener s.registry e (.fn i) c (some (.oneOff e (.fn i) c)) } := rfl

theorem emit_str (s : EmitterState) (e : String) (args : List JSVal) :
    emit s (.val (.strVal e)) args = .ok (emitEvent s e args) := rfl

theorem updateReg_updateReg (r : Registry) (e : String) (l1 l2 : List ListenerReg) :
    updateReg (updateReg r e l1) e l2 = updateReg r e l2 := by
  funext key
  simp only [updateReg]
  split_ifs <;> rfl

/-- The exact-match predicate implies the removal predicate of
`_removeEventListener`, whatever the context argument is. -/
theorem matchPred_true (el : ListenerReg) (f c : JSVal)
    (h : (el.listener == f && el.context == c) = true) :
    (el.listener == f &&
      (if jsTypeof c == "undefined" then true else el.context == c)) = true := by
  split_ifs
  · simp_all
  · exact h

/-- The registry after the remove-then-add body of `on` for one event
name and a function listener: the removal predicate drops matching
registrations, the addition appends a direct registration, and other
names are untouched. -/
theorem on_registry_key (r : Registry) (e : String) (i : Nat) (c : JSVal) :
    (addEventListener (removeEventListener r e (.fn i) c) e (.fn i) c none) e
      = reject (r e) (fun el => el.listener == .fn i &&
          (if jsTypeof c == "undefined" then true else el.context == c))
        ++ [⟨.direct (.fn i), .fn i, c⟩]
  ∧ ∀ a, a ≠ e →
      (addEventListener (removeEventListener r e (.fn i) c) e (.fn i) c none) a = r a := by
  have hrm : removeEventListener r e (.fn i) c
      = updateReg r e (reject (r e) (fun el => el.listener == .fn i &&
          (if jsTypeof c == "undefined" then true else el.context == c))) := by
    simp [removeEventListener, truthy]
  have hfind : findEventListener (removeEventListener r e (.fn i) c) e (.fn i) c = none := by
    rw [hrm]
    unfold findEventListener
    rw [updateReg_self]
    refine (find_eq_none_iff _ _).2 ?_
    intro x hx
    simp only [reject, List.mem_filter] at hx
    cases hp : (x.listener == JSVal.fn i && x.context == c) with
    | false => rfl
    | true =>
      have := matchPred_true x (.fn i) c hp
      rw [this] at hx
      simp at hx
  constructor
  · simp only [addEventListener, hfind]
    rw [hrm, updateReg_self, updateReg_self]
    rfl
  · intro a ha
    simp only [addEventListener, hfind]
    rw [updateReg_ne _ _ _ _ ha, hrm, updateReg_ne _ _ _ _ ha]

/-! ### Claim theorems -/

/-- C7: every state reachable from a fresh instance by a finite sequence
of `on`, `once`, `off`, `emit` calls and scheduler turns has, for every
event name, no two registrations with the same listener and context
identity pair. -/
theorem reachable_registry_has_no_duplicate_pairs (ops : List EmitterOp) (e : String) :
    noDupPairs ((runOps ops).registry e) := by
  refine noDup_foldl_applyOp ops emptyState ?_ e
  intro a
  exact noDupPairs_nil

/-- C3 evidence: the claim says a space-delimited string is split into
independent event names.  The code does not split: `on` with the string
literally named a-space-b-space-c registers the listener under that one
literal key, registers nothing under the individual names, and emitting
the individual names never invokes the listener. -/
theorem on_space_delimited_names_not_split :
    ((okOr emptyState (on' emptyState (.val (.strVal "a b c")) (.fn 0) .undef)).registry "a b c"
        = [⟨.direct (.fn 0), .fn 0, .undef⟩])
  ∧ ((okOr emptyState (on' emptyState (.val (.strVal "a b c")) (.fn 0) .undef)).registry "a" = [])
  ∧ ((okOr emptyState (on' emptyState (.val (.strVal "a b c")) (.fn 0) .undef)).registry "b" = [])
  ∧ callCount ((emitRound "b" []) ((emitRound "a" [])
      (okOr emptyState (on' emptyState (.val (.strVal "a b c")) (.fn 0) .undef)))).callLog
      (.fn 0) = 0 := by
  decide

/-- C6 evidence: the claim says `once` rejects a string containing a
space-delimited list of names with a dedicated validation error.  The
code performs no such check: the call succeeds and registers the one-off
listener under the literal space-containing key. -/
theorem once_space_delimited_name_accepted :
    ((once emptyState (.val (.strVal "event1 event2")) (.fn 0) .undef).toOption.isSome = true)
  ∧ ((okOr emptyState (once emptyState (.val (.strVal "event1 event2")) (.fn 0) .undef)).registry
        "event1 event2"
      = [⟨.oneOff "event1 event2" (.fn 0) .undef, .fn 0, .undef⟩])
  ∧ ((okOr emptyState (once emptyState (.val (.strVal "event1 event2")) (.fn 0) .undef)).registry
        "event1" = []) := by
  decide

/-- C4 counterexample: after registering listener 0 under event e with
context object 1, a subsequent `on` call for the same listener with the
context omitted removes the context-object-1 registration instead of
leaving it untouched; only the fresh undefined-context registration
remains. -/
theorem on_omitted_context_removes_other_context :
    ((okOr (okOr emptyState (on' emptyState (.val (.strVal "e")) (.fn 0) (.obj 1)))
        (on' (okOr emptyState (on' emptyState (.val (.strVal "e")) (.fn 0) (.obj 1)))
          (.val (.strVal "e")) (.fn 0) .undef)).registry "e"
      = [⟨.direct (.fn 0), .fn 0, .undef⟩])
  ∧ findEventListener
      (okOr (okOr emptyState (on' emptyState (.val (.strVal "e")) (.fn 0) (.obj 1)))
        (on' (okOr emptyState (on' emptyState (.val (.strVal "e")) (.fn 0) (.obj 1)))
          (.val (.strVal "e")) (.fn 0) .undef)).registry "e" (.fn 0) (.obj 1)
      = none := by
  decide

/-- C4 amended: for a function listener, `on` with a defined context
first removes exactly the registrations under the event name whose
listener and context both match; with the context omitted (undefined) it
removes every registration of that listener under the event name
regardless of context; it then appends a fresh registration whose stored
callback is the listener itself.  Other event names are untouched. -/
theorem on_removes_exact_pair_when_context_defined (s : EmitterState) (e : String) (i : Nat)
    (c : JSVal) (hc : c ≠ .undef) :
    ((okOr s (on' s (.val (.strVal e)) (.fn i) c)).registry e
      = (s.registry e).filter (fun l => !(l.listener == .fn i && l.context == c))
        ++ [⟨.direct (.fn i), .fn i, c⟩])
  ∧ (∀ a, a ≠ e → (okOr s (on' s (.val (.strVal e)) (.fn i) c)).registry a = s.registry a)
  ∧ ((okOr s (on' s (.val (.strVal e)) (.fn i) .undef)).registry e
      = (s.registry e).filter (fun l => !(l.listener == .fn i))
        ++ [⟨.direct (.fn i), .fn i, .undef⟩]) := by
  have hcu : (jsTypeof c == "undefined") = false := by
    simp [beq_eq_false_iff_ne, jsTypeof_eq_undefined_iff, hc]
  refine ⟨?_, ?_, ?_⟩
  · rw [on_str_fn]
    simp only [okOr]
    have h := (on_registry_key s.registry e i c).1
    rw [h]
    simp [reject, hcu]
  · intro a ha
    rw [on_str_fn]
    simp only [okOr]
    exact (on_registry_key s.registry e i c).2 a ha
  · rw [on_str_fn]
    simp only [okOr]
    have h := (on_registry_key s.registry e i .undef).1
    rw [h]
    simp [reject, jsTypeof]

/-- The body of `off` for one truthy single-string event name reduces to
one `_removeEventListener` call. -/
theorem off_single_name (s : EmitterState) (e : String) (L c : JSVal) (he : e ≠ "") :
    off s (.val (.strVal e)) L c
      = { s with registry := removeEventListener s.registry e L c } := by
  simp [off, truthyNames, truthy, he, toEventNamesList, jsToKeyString]

/-- A falsy listener argument makes `_removeEventListener` clear the
whole list of the event name. -/
theorem remove_falsy (r : Registry) (e : String) (L c : JSVal) (hL : truthy L = false) :
    removeEventListener r e L c = updateReg r e [] := by
  simp [removeEventListener, hL]

theorem truthy_undef : truthy .undef = false := rfl

/-- A function listener argument makes `_removeEventListener` reject the
matching registrations. -/
theorem remove_fn (r : Registry) (e : String) (i : Nat) (c : JSVal) :
    removeEventListener r e (.fn i) c
      = updateReg r e (reject (r e) (fun el => el.listener == .fn i &&
          (if jsTypeof c == "undefined" then true else el.context == c))) := by
  simp [removeEventListener, truthy]

/-- C5: the cascading specificity of `off`.  With a falsy `eventNames`
argument every registration of every event is discarded; with event
names only, every registration under each named event is removed (shown
for a single name and for a two-element array of names) and other names
are untouched; with names and a function listener but no context, every
registration of that listener under the name is removed regardless of
its stored context; with names, listener and a defined context, only
registrations matching listener and context exactly are removed; unknown
names are a silent no-op because filtering an empty list is a no-op, and
`off` is total (never throws) and leaves the pending queue and the call
log unchanged. -/
theorem off_cascading_specificity (s : EmitterState) (e e2 : String) (i : Nat) (c : JSVal)
    (he : e ≠ "") (hc : c ≠ .undef) :
    (∀ a, (off s (.val .undef) .undef .undef).registry a = [])
  ∧ ((off s (.val (.strVal e)) .undef .undef).registry e = []
      ∧ ∀ a, a ≠ e → (off s (.val (.strVal e)) .undef .undef).registry a = s.registry a)
  ∧ ((off s (.arr [.strVal e, .strVal e2]) .undef .undef).registry e = []
      ∧ (off s (.arr [.strVal e, .strVal e2]) .undef .undef).registry e2 = [])
  ∧ ((off s (.val (.strVal e)) (.fn i) .undef).registry e
        = (s.registry e).filter (fun l => !(l.listener == .fn i))
      ∧ ∀ a, a ≠ e → (off s (.val (.strVal e)) (.fn i) .undef).registry a = s.registry a)
  ∧ ((off s (.val (.strVal e)) (.fn i) c).registry e
        = (s.registry e).filter (fun l => !(l.listener == .fn i && l.context == c))
      ∧ (∀ a, a ≠ e → (off s (.val (.strVal e)) (.fn i) c).registry a = s.registry a)
      ∧ (off s (.val (.strVal e)) (.fn i) c).pending = s.pending
      ∧ (off s (.val (.strVal e)) (.fn i) c).callLog = s.callLog) := by
  have hcu : (jsTypeof c == "undefined") = false := by
    simp [beq_eq_false_iff_ne, jsTypeof_eq_undefined_iff, hc]
  refine ⟨?_, ⟨?_, ?_⟩, ⟨?_, ?_⟩, ⟨?_, ?_⟩, ?_, ?_, ?_, ?_⟩
  · intro a
    rfl
  · rw [off_single_name s e .undef .undef he, remove_falsy _ _ _ _ truthy_undef]
    exact updateReg_self _ _ _
  · intro a ha
    rw [off_single_name s e .undef .undef he, remove_falsy _ _ _ _ truthy_undef]
    exact updateReg_ne _ _ _ _ ha
  · simp only [off, truthyNames, toEventNamesList, jsToKeyString, List.map_cons, List.map_nil,
      List.foldl_cons, List.foldl_nil, Bool.not_true, Bool.false_eq_true, if_false]
    rw [remove_falsy _ _ _ _ truthy_undef, remove_falsy _ _ _ _ truthy_undef]
    by_cases h : e = e2
    · subst h
      rw [updateReg_updateReg]
      exact updateReg_self _ _ _
    · rw [updateReg_ne _ _ _ _ h]
      exact updateReg_self _ _ _
  · simp only [off, truthyNames, toEventNamesList, jsToKeyString, List.map_cons, List.map_nil,
      List.foldl_cons, List.foldl_nil, Bool.not_true, Bool.false_eq_true, if_false]
    rw [remove_falsy _ _ _ _ truthy_undef, remove_falsy _ _ _ _ truthy_undef]
    exact updateReg_self _ _ _
  · rw [off_single_name s e (.fn i) .undef he, remove_fn]
    show updateReg _ _ _ _ = _
    rw [updateReg_self]
    simp [reject, jsTypeof]
  · intro a ha
    rw [off_single_name s e (.fn i) .undef he, remove_fn]
    exact updateReg_ne _ _ _ _ ha
  · rw [off_single_name s e (.fn i) c he, remove_fn]
    show updateReg _ _ _ _ = _
    rw [updateReg_self]
    simp [reject, hcu]
  · intro a ha
    rw [off_single_name s e (.fn i) c he, remove_fn]
    exact updateReg_ne _ _ _ _ ha
  · rw [off_single_name s e (.fn i) c he]
  · rw [off_single_name s e (.fn i) c he]

/-- Witness for the C5 theorem at concrete inputs: removing listener 0
under event x with context object 1 filters exactly the matching
registration out of a registry holding that listener under two
contexts. -/
theorem off_cascading_specificity_witness :
    (off (okOr (okOr emptyState (on' emptyState (.val (.strVal "x")) (.fn 0) (.obj 1)))
          (on' (okOr emptyState (on' emptyState (.val (.strVal "x")) (.fn 0) (.obj 1)))
            (.val (.strVal "x")) (.fn 0) (.obj 2)))
        (.val (.strVal "x")) (.fn 0) (.obj 1)).registry "x"
      = ((okOr (okOr emptyState (on' emptyState (.val (.strVal "x")) (.fn 0) (.obj 1)))
          (on' (okOr emptyState (on' emptyState (.val (.strVal "x")) (.fn 0) (.obj 1)))
            (.val (.strVal "x")) (.fn 0) (.obj 2))).registry "x").filter
          (fun l => !(l.listener == .fn 0 && l.context == .obj 1)) :=
  (off_cascading_specificity
    (okOr (okOr emptyState (on' emptyState (.val (.strVal "x")) (.fn 0) (.obj 1)))
      (on' (okOr emptyState (on' emptyState (.val (.strVal "x")) (.fn 0) (.obj 1)))
        (.val (.strVal "x")) (.fn 0) (.obj 2)))
    "x" "y" 0 (.obj 1) (by decide) (by decide)).2.2.2.2.1

/-- The fold of `_emitEvent` over a list of names only appends scheduled
tasks to the pending queue, one per registration per name, in order. -/
theorem foldl_emitEvent_state (names : List String) (s : EmitterState) (args : List JSVal) :
    names.foldl (fun st e => emitEvent st e args) s
      = { s with pending := (s.pending ++ names.flatMap
            (fun e => (s.registry e).map fun l => ⟨l.callback, l.context, args⟩)) } := by
  induction names generalizing s with
  | nil => simp
  | cons x xs ih =>
    rw [List.foldl_cons, ih]
    simp [emitEvent, List.flatMap_cons, List.append_assoc]

/-- C8: on valid input, `emit` succeeds and the resulting state has the
registry and the call log of the state before the call — nothing is
invoked synchronously and nothing is removed — while the pending queue
gains exactly one deferred invocation per matching registration per
named event, carrying the stored callback, the stored context as
receiver, and the emission arguments.  Applying the equation to repeated
emissions shows each emission appends one further independent batch. -/
theorem emit_schedules_deferred_invocations (s : EmitterState) (en : NamesArg)
    (args : List JSVal)
    (h : namesTypeof en = "string" ∨ isArrayOfStrings en = true) :
    (emit s en args).toOption = some
      { registry := s.registry,
        pending := (s.pending ++ (toEventNamesList en).flatMap
          (fun e => (s.registry e).map fun l => ⟨l.callback, l.context, args⟩)),
        callLog := s.callLog } := by
  have hcond : (namesTypeof en != "string" && !isArrayOfStrings en) = false := by
    rcases h with h | h
    · simp [bne_iff_ne, h]
    · simp [h]
  unfold emit
  rw [hcond]
  simp only [Bool.false_eq_true, if_false]
  rw [foldl_emitEvent_state]
  rfl

/-- Witness for the C8 theorem at a concrete input: emitting event x on
a state holding one registration schedules exactly that invocation and
changes neither registry nor call log. -/
theorem emit_schedules_deferred_invocations_witness :
    (emit (okOr emptyState (on' emptyState (.val (.strVal "x")) (.fn 0) (.obj 1)))
        (.val (.strVal "x")) [.numVal 1]).toOption = some
      { registry := (okOr emptyState (on' emptyState (.val (.strVal "x")) (.fn 0) (.obj 1))).registry,
        pending := ((okOr emptyState (on' emptyState (.val (.strVal "x")) (.fn 0) (.obj 1))).pending
          ++ (toEventNamesList (.val (.strVal "x"))).flatMap
            (fun e => ((okOr emptyState (on' emptyState (.val (.strVal "x")) (.fn 0) (.obj 1))).registry e).map
              fun l => ⟨l.callback, l.context, [.numVal 1]⟩)),
        callLog := (okOr emptyState (on' emptyState (.val (.strVal "x")) (.fn 0) (.obj 1))).callLog } :=
  emit_schedules_deferred_invocations
    (okOr emptyState (on' emptyState (.val (.strVal "x")) (.fn 0) (.obj 1)))
    (.val (.strVal "x")) [.numVal 1] (Or.inl rfl)

/-- The state after `once` on a fresh instance: a single one-off
registration under the event name. -/
theorem once_empty_state (e : String) (i : Nat) (c : JSVal) :
    okOr emptyState (once emptyState (.val (.strVal e)) (.fn i) c)
      = { registry := updateReg (fun _ => []) e [⟨.oneOff e (.fn i) c, .fn i, c⟩],
          pending := [], callLog := [] } := rfl

/-- Registrations surviving the removal step of `on` never match the
exact listener-context pair being re-registered. -/
theorem filter_match_reject (X : List ListenerReg) (f c : JSVal) :
    (reject X (fun el => el.listener == f &&
        (if jsTypeof c == "undefined" then true else el.context == c))).filter
      (fun l => l.listener == f && l.context == c) = [] := by
  rw [List.filter_eq_nil_iff]
  intro a ha
  simp only [reject, List.mem_filter] at ha
  intro hp
  have := matchPred_true a f c hp
  rw [this] at ha
  simp at ha

/-- The state after `once` followed by `on` on the same name, listener
and context, starting from a fresh instance: exactly one direct
registration. -/
theorem once_then_on_empty (e : String) (i : Nat) (c : JSVal) :
    okOr (okOr emptyState (once emptyState (.val (.strVal e)) (.fn i) c))
      (on' (okOr emptyState (once emptyState (.val (.strVal e)) (.fn i) c))
        (.val (.strVal e)) (.fn i) c)
    = { registry := updateReg (fun _ => []) e [⟨.direct (.fn i), .fn i, c⟩],
        pending := [], callLog := [] } := by
  rw [once_empty_state, on_str_fn]
  simp only [okOr]
  congr 1
  funext key
  by_cases hk : key = e
  · subst hk
    rw [(on_registry_key _ _ _ _).1, updateReg_self, updateReg_self]
    have hp := matchPred_true ⟨.oneOff key (.fn i) c, .fn i, c⟩ (.fn i) c (by simp)
    simp [reject, hp]
  · rw [(on_registry_key _ _ _ _).2 key hk, updateReg_ne _ _ _ _ hk, updateReg_ne _ _ _ _ hk]

/-- One emission round against a registry holding a single direct
registration: the registry survives unchanged and the listener is
invoked once with its registration context as receiver. -/
theorem emitRound_direct (e : String) (i : Nat) (c : JSVal) (args : List JSVal)
    (L : List CallRecord) :
    emitRound e args
        { registry := updateReg (fun _ => []) e [⟨.direct (.fn i), .fn i, c⟩],
          pending := [], callLog := L }
      = { registry := updateReg (fun _ => []) e [⟨.direct (.fn i), .fn i, c⟩],
          pending := [], callLog := (L ++ [⟨.fn i, c, args⟩]) } := by
  unfold emitRound
  rw [emit_str]
  simp only [okOr]
  unfold emitEvent runAllPending
  simp [updateReg_self, runTask]

/-- Iterated emission rounds against a single direct registration: one
invocation per round, registry always unchanged. -/
theorem iterate_emitRound_direct (e : String) (i : Nat) (c : JSVal) (args : List JSVal)
    (n : Nat) :
    (emitRound e args)^[n]
        { registry := updateReg (fun _ => []) e [⟨.direct (.fn i), .fn i, c⟩],
          pending := [], callLog := [] }
      = { registry := updateReg (fun _ => []) e [⟨.direct (.fn i), .fn i, c⟩],
          pending := [], callLog := List.replicate n ⟨.fn i, c, args⟩ } := by
  induction n with
  | zero => simp
  | succ k ih =>
    rw [Function.iterate_succ_apply', ih, emitRound_direct]
    simp [List.replicate_succ']

theorem callCount_replicate (n : Nat) (i : Nat) (c : JSVal) (args : List JSVal) :
    callCount (List.replicate n ⟨.fn i, c, args⟩) (.fn i) = n := by
  induction n with
  | zero => rfl
  | succ k ih =>
    rw [List.replicate_succ]
    simp only [callCount, List.filter_cons] at ih ⊢
    simp [ih]

/-- C1: calling `once` and then `on` with the same event name, listener
and context leaves, among the registrations under that name matching
the pair, exactly one — a persistent one whose stored callback is the
listener itself, not the once-wrapper (shown from an arbitrary starting
state); and, starting from a fresh instance, every one of n subsequent
emission rounds of the event invokes the listener exactly once, the
registration never being removed. -/
theorem on_after_once_keeps_listener_persistent (s : EmitterState) (e : String) (i : Nat)
    (c : JSVal) (args : List JSVal) (n : Nat) :
    (((okOr (okOr s (once s (.val (.strVal e)) (.fn i) c))
        (on' (okOr s (once s (.val (.strVal e)) (.fn i) c))
          (.val (.strVal e)) (.fn i) c)).registry e).filter
        (fun l => l.listener == .fn i && l.context == c)
      = [⟨.direct (.fn i), .fn i, c⟩])
  ∧ (((emitRound e args)^[n]
        (okOr (okOr emptyState (once emptyState (.val (.strVal e)) (.fn i) c))
          (on' (okOr emptyState (once emptyState (.val (.strVal e)) (.fn i) c))
            (.val (.strVal e)) (.fn i) c))).registry e
      = [⟨.direct (.fn i), .fn i, c⟩])
  ∧ callCount ((emitRound e args)^[n]
        (okOr (okOr emptyState (once emptyState (.val (.strVal e)) (.fn i) c))
          (on' (okOr emptyState (once emptyState (.val (.strVal e)) (.fn i) c))
            (.val (.strVal e)) (.fn i) c))).callLog (.fn i) = n := by
  refine ⟨?_, ?_, ?_⟩
  · rw [once_str_fn]
    simp only [okOr]
    rw [on_str_fn]
    simp only [okOr]
    rw [(on_registry_key _ _ _ _).1]
    rw [List.filter_append, filter_match_reject]
    simp
  · rw [once_then_on_empty, iterate_emitRound_direct]
    simp [updateReg]
  · rw [once_then_on_empty, iterate_emitRound_direct]
    simpa using callCount_replicate n i c args

/-- Iterated `emit` calls with no scheduler turn in between, against a
single one-off registration: each call appends one more scheduled task;
the registry never changes because emission only reads it. -/
theorem iterate_emitOnly_oneOff (n : Nat) (e : String) (i : Nat) (c : JSVal)
    (args : List JSVal) (P : List ScheduledTask) (L : List CallRecord) :
    (emitOnly e args)^[n]
        { registry := updateReg (fun _ => []) e [⟨.oneOff e (.fn i) c, .fn i, c⟩],
          pending := P, callLog := L }
      = { registry := updateReg (fun _ => []) e [⟨.oneOff e (.fn i) c, .fn i, c⟩],
          pending := (P ++ List.replicate n ⟨.oneOff e (.fn i) c, c, args⟩), callLog := L } := by
  induction n generalizing P with
  | zero => simp
  | succ k ih =>
    rw [Function.iterate_succ_apply', ih]
    unfold emitOnly
    rw [emit_str]
    simp only [okOr]
    unfold emitEvent
    simp [updateReg_self, List.replicate_succ', List.append_assoc]

/-- A one-off task whose registration no longer exists does nothing, for
any number of queued copies. -/
theorem runTask_fold_replicate_none (k : Nat) (r : Registry) (L : List CallRecord)
    (e : String) (f c ctx : JSVal) (args : List JSVal)
    (hfind : findEventListener r e f c = none) :
    (List.replicate k (⟨.oneOff e f c, ctx, args⟩ : ScheduledTask)).foldl runTask (r, L)
      = (r, L) := by
  induction k with
  | zero => rfl
  | succ j ih =>
    rw [List.replicate_succ, List.foldl_cons]
    have h1 : runTask (r, L) ⟨.oneOff e f c, ctx, args⟩ = (r, L) := by
      simp [runTask, hfind]
    rw [h1]
    exact ih

/-- Draining a queue of one or more identical one-off tasks: the first
re-check finds the registration, invokes the listener once and removes
the registration; every further queued copy finds nothing and does
nothing. -/
theorem runAllPending_oneOff_replicate_succ (k : Nat) (e : String) (i : Nat) (c : JSVal)
    (args : List JSVal) (L : List CallRecord) :
    runAllPending
        { registry := updateReg (fun _ => []) e [⟨.oneOff e (.fn i) c, .fn i, c⟩],
          pending := List.replicate (k + 1) ⟨.oneOff e (.fn i) c, c, args⟩, callLog := L }
      = { registry := updateReg (fun _ => []) e [], pending := [],
          callLog := (L ++ [⟨.fn i, c, args⟩]) } := by
  have hfind : findEventListener (updateReg (fun _ => []) e [⟨.oneOff e (.fn i) c, .fn i, c⟩])
      e (.fn i) c = some ⟨.oneOff e (.fn i) c, .fn i, c⟩ := by
    unfold findEventListener
    rw [updateReg_self]
    simp [find]
  have hrm : removeEventListener (updateReg (fun _ => []) e [⟨.oneOff e (.fn i) c, .fn i, c⟩])
      e (.fn i) c = updateReg (fun _ => []) e [] := by
    rw [remove_fn, updateReg_updateReg]
    have hp := matchPred_true ⟨.oneOff e (.fn i) c, .fn i, c⟩ (.fn i) c (by simp)
    rw [updateReg_self]
    simp [reject, hp]
  have hnone : findEventListener (updateReg (fun _ => []) e []) e (.fn i) c = none := by
    unfold findEventListener
    rw [updateReg_self]
    rfl
  unfold runAllPending
  rw [List.replicate_succ, List.foldl_cons]
  have h1 : runTask (updateReg (fun _ => []) e [⟨.oneOff e (.fn i) c, .fn i, c⟩], L)
      ⟨.oneOff e (.fn i) c, c, args⟩
      = (updateReg (fun _ => []) e [], L ++ [⟨.fn i, c, args⟩]) := by
    simp [runTask, hfind, hrm]
  rw [h1, runTask_fold_replicate_none k _ _ _ _ _ _ _ hnone]

/-- One emission round of an event with no registrations changes
nothing. -/
theorem emitRound_empty_registry (e : String) (args : List JSVal) (r : Registry)
    (L : List CallRecord) (hr : r e = []) :
    emitRound e args { registry := r, pending := [], callLog := L }
      = { registry := r, pending := [], callLog := L } := by
  unfold emitRound
  rw [emit_str]
  simp only [okOr]
  unfold emitEvent runAllPending
  simp [hr]

/-- Iterated emission rounds of an event with no registrations change
nothing. -/
theorem iterate_emitRound_empty (m : Nat) (e : String) (args : List JSVal) (r : Registry)
    (L : List CallRecord) (hr : r e = []) :
    (emitRound e args)^[m] { registry := r, pending := [], callLog := L }
      = { registry := r, pending := [], callLog := L } := by
  induction m with
  | zero => rfl
  | succ k ih => rw [Function.iterate_succ_apply', ih, emitRound_empty_registry _ _ _ _ hr]

/-- C2: after `once` on a fresh instance, however the subsequent
emissions of the event are arranged — n emissions scheduled back to back
before any listener runs, one scheduler turn draining them all, then m
further emission rounds each followed by a turn — the listener is
invoked at most once in total: exactly once when there was any emission
at all, because the once-wrapper re-checks the registration at
invocation time, fires, and removes it, so every later queued or newly
scheduled invocation finds nothing. -/
theorem once_fires_at_most_once (e : String) (i : Nat) (c : JSVal) (args : List JSVal)
    (n m : Nat) :
    callCount ((emitRound e args)^[m]
        (runAllPending ((emitOnly e args)^[n]
          (okOr emptyState (once emptyState (.val (.strVal e)) (.fn i) c))))).callLog
      (.fn i) = min (n + m) 1 := by
  rw [once_empty_state, iterate_emitOnly_oneOff n e i c args [] []]
  simp only [List.nil_append]
  have hr0 : (updateReg (fun _ => []) e ([] : List ListenerReg)) e = [] :=
    updateReg_self _ _ _
  cases n with
  | zero =>
    simp only [List.replicate_zero]
    have hfix : runAllPending
        { registry := updateReg (fun _ => []) e [⟨.oneOff e (.fn i) c, .fn i, c⟩],
          pending := [], callLog := [] }
        = { registry := updateReg (fun _ => []) e [⟨.oneOff e (.fn i) c, .fn i, c⟩],
            pending := [], callLog := [] } := rfl
    rw [hfix]
    cases m with
    | zero => rfl
    | succ j =>
      rw [Function.iterate_succ_apply]
      have hD : emitRound e args
          { registry := updateReg (fun _ => []) e [⟨.oneOff e (.fn i) c, .fn i, c⟩],
            pending := [], callLog := [] }
          = { registry := updateReg (fun _ => []) e [], pending := [],
              callLog := ([] ++ [⟨.fn i, c, args⟩]) } := by
        unfold emitRound
        rw [emit_str]
        simp only [okOr]
        have hE : emitEvent
            { registry := updateReg (fun _ => []) e [⟨.oneOff e (.fn i) c, .fn i, c⟩],
              pending := [], callLog := [] } e args
            = { registry := updateReg (fun _ => []) e [⟨.oneOff e (.fn i) c, .fn i, c⟩],
                pending := List.replicate 1 ⟨.oneOff e (.fn i) c, c, args⟩, callLog := [] } := by
          unfold emitEvent
          simp [updateReg_self, List.replicate_one]
        rw [hE, runAllPending_oneOff_replicate_succ 0 e i c args []]
      rw [hD, iterate_emitRound_empty j e args _ _ hr0]
      simp [callCount, Nat.min_def]
  | succ k =>
    rw [runAllPending_oneOff_replicate_succ k e i c args []]
    rw [iterate_emitRound_empty m e args _ _ hr0]
    simp only [List.nil_append]
    simp [callCount]
    omega

/-- C9: when validation fails — `eventNames` neither a string nor a
non-empty array of strings for `on` and `emit`, `eventName` not a string
for `once`, or a non-callable listener for `on` and `once` — the call
returns an error and the returned state is exactly the state before the
call: no registration happened and nothing was scheduled.  (In the
source the two `typeof` checks precede every mutation of the registry
and every `Promise` creation, which the embedding mirrors by placing the
checks before any state construction.) -/
theorem validation_failure_leaves_state_unchanged (s : EmitterState) (en : NamesArg)
    (f c : JSVal) (args : List JSVal) :
    (¬(namesTypeof en = "string" ∨ isArrayOfStrings en = true) →
        ((on' s en f c).toOption = none ∧ okOr s (on' s en f c) = s
          ∧ (emit s en args).toOption = none ∧ okOr s (emit s en args) = s))
  ∧ (namesTypeof en ≠ "string" →
        ((once s en f c).toOption = none ∧ okOr s (once s en f c) = s))
  ∧ (jsTypeof f ≠ "function" →
        ((on' s en f c).toOption = none ∧ okOr s (on' s en f c) = s
          ∧ (once s en f c).toOption = none ∧ okOr s (once s en f c) = s)) := by
  refine ⟨?_, ?_, ?_⟩
  · intro h
    push_neg at h
    have hcond : (namesTypeof en != "string" && !isArrayOfStrings en) = true := by
      simp [bne_iff_ne, h.1, h.2]
    refine ⟨?_, ?_, ?_, ?_⟩ <;> simp [on', emit, hcond, okOr, Except.toOption]
  · intro h
    cases en with
    | arr l => simp [once, okOr, Except.toOption]
    | val v =>
      cases v with
      | strVal e => exact absurd rfl h
      | undef => simp [once, okOr, Except.toOption]
      | nul => simp [once, okOr, Except.toOption]
      | boolVal b => simp [once, okOr, Except.toOption]
      | numVal n => simp [once, okOr, Except.toOption]
      | fn j => simp [once, okOr, Except.toOption]
      | obj j => simp [once, okOr, Except.toOption]
  · intro hf
    have hbf : (jsTypeof f != "function") = true := by
      simp [bne_iff_ne, hf]
    refine ⟨?_, ?_, ?_, ?_⟩
    · unfold on'
      split_ifs with h1
      · simp [Except.toOption]
      · simp [Except.toOption]
    · unfold on'
      split_ifs with h1
      · simp [okOr]
      · simp [okOr]
    · cases en with
      | arr l => simp [once, okOr, Except.toOption]
      | val v =>
        cases v with
        | strVal e => simp [once, hbf, Except.toOption]
        | undef => simp [once, okOr, Except.toOption]
        | nul => simp [once, okOr, Except.toOption]
        | boolVal b => simp [once, okOr, Except.toOption]
        | numVal n => simp [once, okOr, Except.toOption]
        | fn j => simp [once, okOr, Except.toOption]
        | obj j => simp [once, okOr, Except.toOption]
    · cases en with
      | arr l => simp [once, okOr, Except.toOption]
      | val v =>
        cases v with
        | strVal e => simp [once, hbf, okOr, Except.toOption]
        | undef => simp [once, okOr, Except.toOption]
        | nul => simp [once, okOr, Except.toOption]
        | boolVal b => simp [once, okOr, Except.toOption]
        | numVal n => simp [once, okOr, Except.toOption]
        | fn j => simp [once, okOr, Except.toOption]
        | obj j => simp [once, okOr, Except.toOption]

/-- Witness for the C9 theorem at concrete inputs: a numeric
`eventNames` argument makes `on` and `emit` fail and leave the fresh
state unchanged, and a string listener makes `once` fail on a valid
event name. -/
theorem validation_failure_witness :
    ((on' emptyState (.val (.numVal 5)) (.fn 0) .undef).toOption = none)
  ∧ (okOr emptyState (emit emptyState (.val (.numVal 5)) []) = emptyState)
  ∧ ((once emptyState (.val (.strVal "e")) (.strVal "bad") .undef).toOption = none) :=
  ⟨((validation_failure_leaves_state_unchanged emptyState (.val (.numVal 5))
      (.fn 0) .undef []).1 (by decide)).1,
    ((validation_failure_leaves_state_unchanged emptyState (.val (.numVal 5))
      (.fn 0) .undef []).1 (by decide)).2.2.2,
    ((validation_failure_leaves_state_unchanged emptyState (.val (.strVal "e"))
      (.strVal "bad") .undef []).2.2 (by decide)).2.2.1⟩

/-- C10: when the listener argument of `off` is any falsy value, the
whole registration list of the (truthy) event name is cleared, whatever
the context argument is; other event names are untouched. -/
theorem off_falsy_listener_removes_all (s : EmitterState) (e : String) (L c : JSVal)
    (he : e ≠ "") (hL : truthy L = false) :
    ((off s (.val (.strVal e)) L c).registry e = [])
  ∧ (∀ a, a ≠ e → (off s (.val (.strVal e)) L c).registry a = s.registry a) := by
  rw [off_single_name s e L c he, remove_falsy _ _ _ _ hL]
  exact ⟨updateReg_self _ _ _, fun a ha => updateReg_ne _ _ _ _ ha⟩

/-- Witness for the C10 theorem: `off` with the falsy listener 0 and the
defined context object 7 clears a registry entry that was registered
under the different context object 1. -/
theorem off_falsy_listener_removes_all_witness :
    (off (okOr emptyState (on' emptyState (.val (.strVal "x")) (.fn 0) (.obj 1)))
        (.val (.strVal "x")) (.numVal 0) (.obj 7)).registry "x" = [] :=
  (off_falsy_listener_removes_all
    (okOr emptyState (on' emptyState (.val (.strVal "x")) (.fn 0) (.obj 1)))
    "x" (.numVal 0) (.obj 7) (by decide) (by decide)).1

/-- Witness for the amended C4 theorem at a concrete input: a listener
registered under context object 1 is kept when `on` re-registers the
same listener under the distinct context object 2. -/
theorem on_removes_exact_pair_witness :
    (okOr (okOr emptyState (on' emptyState (.val (.strVal "x")) (.fn 0) (.obj 1)))
        (on' (okOr emptyState (on' emptyState (.val (.strVal "x")) (.fn 0) (.obj 1)))
          (.val (.strVal "x")) (.fn 0) (.obj 2))).registry "x"
      = ((okOr emptyState (on' emptyState (.val (.strVal "x")) (.fn 0) (.obj 1))).registry "x").filter
          (fun l => !(l.listener == .fn 0 && l.context == .obj 2))
        ++ [⟨.direct (.fn 0), .fn 0, .obj 2⟩] :=
  (on_removes_exact_pair_when_context_defined
    (okOr emptyState (on' emptyState (.val (.strVal "x")) (.fn 0) (.obj 1)))
    "x" 0 (.obj 2) (by decide)).1

end EventEmitter
